import Mathlib

/-!
Verification of the sales-analytics reporting layer
(`src/ui_builder/data_viz.py` and `src/ui_builder/insights.py`).

The dataset is modelled as a list of rows (`SalesRecord`); pandas float
results that can be NaN or infinite are modelled by `PFloat`, with IEEE
division-by-zero behaviour made explicit in `pdiv`.  Group-by operations
are modelled by collecting the distinct keys (sorted, as pandas does) and
filtering the rows for each key.
-/

namespace SalesSpec

/-- A calendar date as stored in the `date` column. -/
structure Date where
  year  : Int
  month : Int
  day   : Int
deriving DecidableEq, Repr

/-- One row of the sales dataset: required columns `date` and `sales`,
plus the dimension columns used by the analyses. -/
structure SalesRecord where
  date       : Date
  sales      : ℚ
  store_name : String
  item_name  : String
  category   : String
deriving DecidableEq, Repr

/-- A pandas float value: finite rational, or one of the non-finite
IEEE values NaN, +inf, -inf. -/
inductive PFloat where
  | nan  : PFloat
  | inf  : PFloat
  | ninf : PFloat
  | fin  : ℚ → PFloat
deriving DecidableEq, Repr

/-- IEEE semantics of `a / b` on exact operands: division by zero gives
NaN for 0/0 and a signed infinity otherwise. -/
def pdiv (a b : ℚ) : PFloat :=
  if b = 0 then
    if a = 0 then .nan else if 0 < a then .inf else .ninf
  else .fin (a / b)

/-- Multiplication by the literal 100, as applied to percent changes. -/
def PFloat.mul100 : PFloat → PFloat
  | .nan => .nan
  | .inf => .inf
  | .ninf => .ninf
  | .fin q => .fin (q * 100)

/-- IEEE addition on pandas values (NaN absorbs; inf + (-inf) = NaN). -/
def PFloat.add : PFloat → PFloat → PFloat
  | .nan, _ => .nan
  | _, .nan => .nan
  | .inf, .ninf => .nan
  | .ninf, .inf => .nan
  | .inf, _ => .inf
  | .ninf, _ => .ninf
  | .fin _, .inf => .inf
  | .fin _, .ninf => .ninf
  | .fin a, .fin b => .fin (a + b)

def PFloat.isNaN : PFloat → Bool
  | .nan => true
  | _ => false

def PFloat.toQ : PFloat → Option ℚ
  | .fin q => some q
  | _ => none

/-- Division of a pandas value by a (positive) row count. -/
def PFloat.divNat (x : PFloat) (n : Nat) : PFloat :=
  match x with
  | .nan => .nan
  | .inf => .inf
  | .ninf => .ninf
  | .fin q => .fin (q / n)

/-- `Series.mean()` with the default `skipna=True`: NaN entries are
dropped; the mean of an all-NaN (or empty) series is NaN. -/
def pmean (l : List PFloat) : PFloat :=
  let kept := l.filter (fun x => !x.isNaN)
  if kept.length = 0 then .nan
  else (kept.foldl PFloat.add (.fin 0)).divNat kept.length

/-- numpy rounding of a rational to the nearest integer, ties to even. -/
def roundHalfEven (q : ℚ) : ℤ :=
  let f : ℤ := ⌊q⌋
  let r : ℚ := q - f
  if r < 1/2 then f
  else if 1/2 < r then f + 1
  else if f % 2 = 0 then f else f + 1

/-- `round(x, 1)`: round to one decimal place. -/
def roundTo1 (q : ℚ) : ℚ := (roundHalfEven (q * 10) : ℚ) / 10

/-- `.round(1)` lifted to pandas values (non-finite values unchanged). -/
def PFloat.round1 : PFloat → PFloat
  | .nan => .nan
  | .inf => .inf
  | .ninf => .ninf
  | .fin q => .fin (roundTo1 q)

/-- `x > c` as evaluated by Python on a float `x`: comparisons with NaN
are false. -/
def pfGtQ : PFloat → ℚ → Bool
  | .nan, _ => false
  | .inf, _ => true
  | .ninf, _ => false
  | .fin q, c => decide (c < q)

/-- Insert `x` into `l` before the first element `y` with `le x y`. -/
def insertLe {α : Type} (le : α → α → Bool) (x : α) : List α → List α
  | [] => [x]
  | y :: ys => if le x y then x :: y :: ys else y :: insertLe le x ys

/-- Insertion sort with comparator `le`; models the key sort that pandas
`groupby(sort=True)` performs. -/
def sortBy {α : Type} (le : α → α → Bool) : List α → List α
  | [] => []
  | x :: xs => insertLe le x (sortBy le xs)

/-- The distinct group keys of `l` under key function `f`, in the sorted
order in which pandas `groupby` emits them. -/
def keysOf {α κ : Type} [DecidableEq κ] (f : α → κ) (le : κ → κ → Bool)
    (l : List α) : List κ :=
  sortBy le (l.map f).dedup

/-- The rows of `l` falling into the group with key `k`. -/
def groupRows {α κ : Type} [DecidableEq κ] (f : α → κ) (k : κ) (l : List α) :
    List α :=
  l.filter (fun x => decide (f x = k))

/-- Sum of the `sales` column. -/
def salesSum (l : List SalesRecord) : ℚ := (l.map SalesRecord.sales).sum

/-- Comparator for Int keys (years, year-month periods). -/
def intLe (a b : Int) : Bool := decide (a ≤ b)

/-- Code-point comparator on strings, as pandas sorts object keys. -/
def charListLe : List Char → List Char → Bool
  | [], _ => true
  | _ :: _, [] => false
  | a :: as, b :: bs =>
    if a.toNat < b.toNat then true
    else if b.toNat < a.toNat then false
    else charListLe as bs

def strLe (a b : String) : Bool := charListLe a.data b.data

/-- Lexicographic comparator on dates. -/
def dateLe (a b : Date) : Bool :=
  decide (a.year < b.year) ||
    (decide (a.year = b.year) &&
      (decide (a.month < b.month) ||
        (decide (a.month = b.month) && decide (a.day ≤ b.day))))

/-- Days since 1970-01-01 of a Gregorian calendar date (the standard
civil-from-days computation used by datetime libraries). -/
def daysFromCivil (d : Date) : Int :=
  let y : Int := if d.month ≤ 2 then d.year - 1 else d.year
  let era : Int := (if 0 ≤ y then y else y - 399) / 400
  let yoe : Int := y - era * 400
  let mp : Int := (d.month + 9) % 12
  let doy : Int := (153 * mp + 2) / 5 + d.day - 1
  let doe : Int := yoe * 365 + yoe / 4 - yoe / 100 + doy
  era * 146097 + doe - 719468

def dayNames : List String :=
  ["Monday", "Tuesday", "Wednesday", "Thursday", "Friday", "Saturday", "Sunday"]

/-- Index of the weekday, Monday = 0 (1970-01-01 was a Thursday). -/
def dayOfWeekIndex (d : Date) : Nat := ((daysFromCivil d + 3) % 7).toNat

/-- `Series.dt.day_name()` for one date. -/
def day_name (d : Date) : String := (dayNames.getD (dayOfWeekIndex d) "")

/-! ## data_viz.py -/

/-- `filtered_data.groupby("date")["sales"].sum()` from
`plot_sales_time_series` (data_viz.py line 8). -/
def daily_sales (filtered_data : List SalesRecord) : List (Date × ℚ) :=
  (keysOf SalesRecord.date dateLe filtered_data).map
    (fun d => (d, salesSum (groupRows SalesRecord.date d filtered_data)))

/-- Generic `groupby(key)["sales"].mean()`: one `(key, mean)` pair per
distinct key, keys sorted. Every group is non-empty, so the mean is a
plain rational. -/
def groupbyMean {κ : Type} [DecidableEq κ] (f : SalesRecord → κ)
    (le : κ → κ → Bool) (l : List SalesRecord) : List (κ × ℚ) :=
  (keysOf f le l).map
    (fun k => (k, salesSum (groupRows f k l) / (groupRows f k l).length))

/-- `Series.reindex(order)`: look each requested key up in the table;
keys without a row become NaN. -/
def reindex (tbl : List (String × ℚ)) (order : List String) :
    List (String × PFloat) :=
  order.map (fun k =>
    (k, match tbl.find? (fun p => p.1 == k) with
        | some p => .fin p.2
        | none => .nan))

def day_order : List String :=
  ["Monday", "Tuesday", "Wednesday", "Thursday", "Friday", "Saturday", "Sunday"]

/-- The aggregation of `plot_day_of_week_pattern` (data_viz.py lines
35-44): derive the day name from the date, group-by mean, then reindex
into Monday..Sunday order. -/
def plot_day_of_week_pattern (filtered_data : List SalesRecord) :
    List (String × PFloat) :=
  reindex (groupbyMean (fun r => day_name r.date) strLe filtered_data) day_order

/-! ## insights.py: page skeleton -/

/-- The parts of the Business Insights page, at the granularity rendered
by `business_insights_view`. -/
inductive PageSection where
  | noDataWarning
  | introMarkdown
  | executiveSummary
  | performerAnalysis
  | timingInsights
  | growthOpportunities
  | recommendations
deriving DecidableEq, Repr

/-- The analysis sections are everything except the no-data warning and
the introductory markdown. -/
def PageSection.isAnalysis : PageSection → Bool
  | .noDataWarning => false
  | .introMarkdown => false
  | _ => true

/-- `business_insights_view` (insights.py lines 8-43): on an empty
dataset it shows the warning and returns; otherwise it renders the five
analysis sections in order. -/
def business_insights_view (data : List SalesRecord) : List PageSection :=
  if data.isEmpty then [.noDataWarning]
  else [.introMarkdown, .executiveSummary, .performerAnalysis,
        .timingInsights, .growthOpportunities, .recommendations]

/-! ## insights.py: executive summary (month-over-month trend) -/

/-- `date.dt.to_period("M")`: the year-month period of a date, encoded
so that chronological order is integer order. -/
def periodKey (d : Date) : Int := d.year * 12 + (d.month - 1)

/-- `data.groupby(data["date"].dt.to_period("M"))["sales"].sum()`
(insights.py lines 69-73): monthly totals keyed by period, sorted. -/
def monthly (data : List SalesRecord) : List (Int × ℚ) :=
  (keysOf (fun r => periodKey r.date) intLe data).map
    (fun k => (k, salesSum (groupRows (fun r => periodKey r.date) k data)))

def monthlyVals (data : List SalesRecord) : List ℚ :=
  (monthly data).map Prod.snd

def pct_change_go (prev : ℚ) : List ℚ → List PFloat
  | [] => []
  | c :: cs => (pdiv (c - prev) prev).mul100 :: pct_change_go c cs

/-- `Series.pct_change() * 100` (insights.py line 75): NaN for the first
entry, then `(current - previous) / previous * 100` with IEEE
division-by-zero behaviour. -/
def pct_change : List ℚ → List PFloat
  | [] => []
  | v :: vs => .nan :: pct_change_go v vs

/-- `Series.tail(n)`: the last `n` entries. -/
def lastN {α : Type} (n : Nat) (l : List α) : List α := l.drop (l.length - n)

/-- `monthly["pct_change"].tail(3).mean()` (insights.py line 77). -/
def recent_trend (data : List SalesRecord) : PFloat :=
  pmean (lastN 3 (pct_change (monthlyVals data)))

inductive TrendBand where
  | positive
  | stable
  | declining
deriving DecidableEq, Repr

/-- The branch taken on `recent_trend` (insights.py lines 78-92):
`st.success` if `> 5`, `st.info` if `> 0`, else `st.warning`. -/
def classify_trend (r : PFloat) : TrendBand :=
  if pfGtQ r 5 then .positive
  else if pfGtQ r 0 then .stable
  else .declining

/-- Modelled from the spec's words for claim C8 only, to compare with the
code: "mean of the last 3 non-null percent changes" — drop the null
entries first, then take the last three and average them. -/
def specRecentTrendClaim (data : List SalesRecord) : PFloat :=
  pmean (lastN 3 ((pct_change (monthlyVals data)).filter (fun p => !p.isNaN)))

/-! ## insights.py: store x category gap analysis -/

/-- `data.groupby("store_name")` keys. -/
def store_names (data : List SalesRecord) : List String :=
  keysOf SalesRecord.store_name strLe data

def categories (data : List SalesRecord) : List String :=
  keysOf SalesRecord.category strLe data

/-- The rows contributing to the pivot cell `(store s, category c)`. -/
def cellRows (data : List SalesRecord) (s c : String) : List SalesRecord :=
  data.filter (fun r => r.store_name == s && r.category == c)

/-- A cell of `store_cat.pivot(index="store_name", columns="category")`
(insights.py lines 333-338): the mean of the cell's rows, NaN (`none`)
for a store x category combination with no rows. -/
def cellMean (data : List SalesRecord) (s c : String) : Option ℚ :=
  if (cellRows data s c).isEmpty then none
  else some (salesSum (cellRows data s c) / (cellRows data s c).length)

/-- `pivot.mean()` for one category column (insights.py line 341):
skipna mean over the stores that have data in this column. -/
def category_avg (data : List SalesRecord) (c : String) : Option ℚ :=
  let vals := (store_names data).filterMap (fun s => cellMean data s c)
  if vals.length = 0 then none else some (vals.sum / vals.length)

/-- One cell of the `gaps` table (insights.py lines 342-344):
`((pivot[col] - category_avg[col]) / category_avg[col] * 100).round(1)`,
with pandas NaN propagation. -/
def gaps_cell (data : List SalesRecord) (s c : String) : PFloat :=
  match cellMean data s c, category_avg data c with
  | some v, some m => ((pdiv (v - m) m).mul100).round1
  | _, _ => .nan

/-- Written from the spec's formula for claim C6: the mean of one
store x category cell. -/
def specCellMean (data : List SalesRecord) (s c : String) : ℚ :=
  salesSum (cellRows data s c) / (cellRows data s c).length

/-- The stores whose cell in column `c` has data. -/
def storesWithData (data : List SalesRecord) (c : String) : List String :=
  (store_names data).filter (fun s => !(cellRows data s c).isEmpty)

/-- Written from the spec's words for claim C6: the column mean over
exactly the stores that have data, missing combinations excluded. -/
def specColumnMean (data : List SalesRecord) (c : String) : ℚ :=
  ((storesWithData data c).map (fun s => specCellMean data s c)).sum /
    (storesWithData data c).length

/-! ## insights.py: year-over-year growth -/

/-- `data["date"].dt.year` distinct values, sorted (the columns of the
unstacked year x item table, insights.py line 392). -/
def yearsOf (data : List SalesRecord) : List Int :=
  keysOf (fun r => r.date.year) intLe data

def item_names (data : List SalesRecord) : List String :=
  keysOf SalesRecord.item_name strLe data

def itemYearRows (data : List SalesRecord) (i : String) (y : Int) :
    List SalesRecord :=
  data.filter (fun r => r.item_name == i && r.date.year == y)

/-- A cell of `data.groupby([year, item])["sales"].sum().unstack(level=0)`:
the item's total for that year, NaN (`none`) if the item has no rows in
that year. -/
def itemYearSum (data : List SalesRecord) (i : String) (y : Int) : Option ℚ :=
  if (itemYearRows data i y).isEmpty then none
  else some (salesSum (itemYearRows data i y))

/-- `yoy["growth_pct"]` (insights.py line 396): with `year1, year2` the
two earliest years, `((yoy[year2] - yoy[year1]) / yoy[year1] * 100).round(1)`;
NaN when either year's cell is NaN. -/
def growth_pct (data : List SalesRecord) (i : String) : PFloat :=
  match yearsOf data with
  | y1 :: y2 :: _ =>
    match itemYearSum data i y1, itemYearSum data i y2 with
    | some a, some b => ((pdiv (b - a) a).mul100).round1
    | _, _ => .nan
  | _ => .nan

/-- Comparator placing rows in `sort_values("growth_pct", ascending=False)`
order: larger growth first, NaN last. -/
def pfDescLe (a b : PFloat) : Bool :=
  match a, b with
  | .nan, .nan => true
  | .nan, _ => false
  | _, .nan => true
  | .inf, _ => true
  | _, .inf => false
  | .ninf, .ninf => true
  | .ninf, _ => false
  | _, .ninf => true
  | .fin x, .fin y => decide (y ≤ x)

/-- The item rows surviving
`yoy.sort_values("growth_pct", ascending=False).dropna()`
(insights.py line 397): `dropna` keeps a row only if every year column
and the growth column are non-NaN. -/
def yoy_reported (data : List SalesRecord) : List String :=
  (sortBy (fun i j => pfDescLe (growth_pct data i) (growth_pct data j))
      (item_names data)).filter
    (fun i => ((yearsOf data).all (fun y => (itemYearSum data i y).isSome)) &&
      !(growth_pct data i).isNaN)

/-! ## Mutation model for the day-of-week preambles

`plot_day_of_week_pattern` (data_viz.py lines 35-36) and
`display_timing_insights` (insights.py lines 252-253) add a derived
`day_of_week` column.  To check that the caller's dataframe is left
unchanged, Python variables are modelled as references into a heap of
dataframe values: `.copy()` allocates a fresh cell, and column
assignment mutates the referenced cell in place. -/

/-- A dataframe value: the base rows plus any derived string columns
added to it. -/
structure Frame where
  rows  : List SalesRecord
  extra : List (String × List String)
deriving DecidableEq, Repr

def Frame.ofRows (rs : List SalesRecord) : Frame := ⟨rs, []⟩

/-- The dataframe expressions appearing in the modelled statements. -/
inductive PExpr where
  | var    : String → PExpr
  | copyOf : String → PExpr
deriving Repr

/-- The statements appearing in the modelled function bodies:
binding a name, or assigning the day-name column in place. -/
inductive PStmt where
  | assign     : String → PExpr → PStmt
  | setDayName : String → String → PStmt
deriving Repr

structure PState where
  env  : List (String × Nat)
  heap : List Frame

def lookupRef (st : PState) (x : String) : Option Nat :=
  (st.env.find? (fun p => p.1 == x)).map Prod.snd

def heapGet (st : PState) (r : Nat) : Option Frame := st.heap[r]?

/-- `X["day_of_week"] = X["date"].dt.day_name()` applied to a frame. -/
def addDayCol (f : Frame) (col : String) : Frame :=
  { f with extra := f.extra ++ [(col, f.rows.map (fun r => day_name r.date))] }

def evalPExpr (st : PState) : PExpr → Option (Nat × PState)
  | .var x => (lookupRef st x).map (fun r => (r, st))
  | .copyOf x => do
    let r ← lookupRef st x
    let f ← heapGet st r
    pure (st.heap.length, { st with heap := st.heap ++ [f] })

def execStmt (st : PState) : PStmt → Option PState
  | .assign x e =>
    (evalPExpr st e).map (fun p => { p.2 with env := (x, p.1) :: p.2.env })
  | .setDayName x col => do
    let r ← lookupRef st x
    let f ← heapGet st r
    pure { st with heap := st.heap.set r (addDayCol f col) }

def execProg (st : PState) : List PStmt → Option PState
  | [] => some st
  | s :: rest => (execStmt st s).bind (fun st1 => execProg st1 rest)

/-- `data_copy = data.copy(); data_copy["day_of_week"] = ...` from
`display_timing_insights` (insights.py lines 252-253). -/
def timing_insights_body : List PStmt :=
  [.assign "data_copy" (.copyOf "data"),
   .setDayName "data_copy" "day_of_week"]

/-- `data = filtered_data.copy(); data["day_of_week"] = ...` from
`plot_day_of_week_pattern` (data_viz.py lines 35-36). -/
def dow_pattern_body : List PStmt :=
  [.assign "data" (.copyOf "filtered_data"),
   .setDayName "data" "day_of_week"]

/-- Initial state: the parameter bound to the caller's dataframe. -/
def initState (param : String) (rs : List SalesRecord) : PState :=
  { env := [(param, 0)], heap := [Frame.ofRows rs] }

/-- The frame that variable `x` refers to after running `body` with the
caller's dataframe bound to `param`. -/
def frameOfVar (param : String) (body : List PStmt) (rs : List SalesRecord)
    (x : String) : Option Frame :=
  (execProg (initState param rs) body).bind
    (fun st => (lookupRef st x).bind (heapGet st))

/-! ## Concrete datasets used as witnesses and counterexamples -/

def exC1 : List SalesRecord :=
  [⟨⟨2021, 3, 5⟩, 10, "S1", "I1", "Food"⟩,
   ⟨⟨2021, 3, 5⟩, 4, "S2", "I2", "Food"⟩,
   ⟨⟨2021, 3, 6⟩, 7, "S1", "I1", "Food"⟩]

def exC3 : List SalesRecord :=
  [⟨⟨2021, 1, 1⟩, 0, "A", "I", "X"⟩]

def exC4 : List SalesRecord :=
  [⟨⟨2021, 1, 10⟩, 100, "S", "I", "Food"⟩,
   ⟨⟨2021, 2, 10⟩, 150, "S", "I", "Food"⟩]

def exC5 : List SalesRecord :=
  [⟨⟨2020, 6, 1⟩, 10, "S", "A", "Food"⟩,
   ⟨⟨2021, 6, 1⟩, 15, "S", "A", "Food"⟩,
   ⟨⟨2022, 6, 1⟩, 7, "S", "B", "Food"⟩]

def exC5w : List SalesRecord :=
  [⟨⟨2020, 6, 1⟩, 10, "S", "A", "Food"⟩,
   ⟨⟨2021, 6, 1⟩, 15, "S", "A", "Food"⟩]

def exC6 : List SalesRecord :=
  [⟨⟨2021, 1, 1⟩, 10, "A", "I", "X"⟩,
   ⟨⟨2021, 1, 1⟩, 20, "B", "I", "X"⟩]

def exC7a : List SalesRecord :=
  [⟨⟨2021, 6, 7⟩, 3, "S", "I", "Food"⟩,
   ⟨⟨2021, 6, 8⟩, 5, "S", "I", "Food"⟩]

def exC7b : List SalesRecord :=
  [⟨⟨2021, 6, 8⟩, 5, "S", "I", "Food"⟩,
   ⟨⟨2021, 6, 7⟩, 3, "S", "I", "Food"⟩]

def exC8 : List SalesRecord :=
  [⟨⟨2021, 1, 15⟩, 1, "S", "I", "Food"⟩,
   ⟨⟨2021, 2, 15⟩, 2, "S", "I", "Food"⟩,
   ⟨⟨2021, 3, 15⟩, 0, "S", "I", "Food"⟩,
   ⟨⟨2021, 4, 15⟩, 0, "S", "I", "Food"⟩,
   ⟨⟨2021, 5, 15⟩, 0, "S", "I", "Food"⟩]

def exC10 : List SalesRecord :=
  [⟨⟨2021, 7, 4⟩, 5, "S", "I", "Food"⟩]

/-! ## Generic lemmas about the sorting and grouping model -/

theorem mem_insertLe {α : Type} {le : α → α → Bool} {x a : α} :
    ∀ {l : List α}, a ∈ insertLe le x l ↔ a = x ∨ a ∈ l := by
  intro l
  induction l with
  | nil => simp [insertLe]
  | cons y ys ih =>
    by_cases h : le x y = true
    · simp [insertLe, h]
    · simp only [insertLe, if_neg h, List.mem_cons, ih]
      tauto

theorem mem_sortBy {α : Type} {le : α → α → Bool} {a : α} :
    ∀ {l : List α}, a ∈ sortBy le l ↔ a ∈ l := by
  intro l
  induction l with
  | nil => simp [sortBy]
  | cons x xs ih => simp [sortBy, mem_insertLe, ih]

theorem nodup_insertLe {α : Type} {le : α → α → Bool} {x : α} :
    ∀ {l : List α}, x ∉ l → l.Nodup → (insertLe le x l).Nodup := by
  intro l
  induction l with
  | nil => intro _ _; simp [insertLe]
  | cons y ys ih =>
    intro hx hl
    rcases List.nodup_cons.mp hl with ⟨hy, hys⟩
    have hxy : ¬(x = y) := fun h => hx (by simp [h])
    have hxys : x ∉ ys := fun h => hx (by simp [h])
    by_cases h : le x y = true
    · simp only [insertLe, if_pos h]
      exact List.nodup_cons.mpr ⟨by simp [hxy, hx, hxys], hl⟩
    · simp only [insertLe, if_neg h]
      refine List.nodup_cons.mpr ⟨?_, ih hxys hys⟩
      intro hmem
      rcases mem_insertLe.mp hmem with h1 | h1
      · exact hxy h1.symm
      · exact hy h1

theorem nodup_sortBy {α : Type} {le : α → α → Bool} :
    ∀ {l : List α}, l.Nodup → (sortBy le l).Nodup := by
  intro l
  induction l with
  | nil => intro _; simp [sortBy]
  | cons x xs ih =>
    intro h
    rcases List.nodup_cons.mp h with ⟨hx, hxs⟩
    exact nodup_insertLe (fun hmem => hx (mem_sortBy.mp hmem)) (ih hxs)

theorem pairwise_insertLe {α : Type} {le : α → α → Bool}
    (htot : ∀ a b, le a b = true ∨ le b a = true)
    (htrans : ∀ a b c, le a b = true → le b c = true → le a c = true)
    (x : α) :
    ∀ {l : List α}, l.Pairwise (fun a b => le a b = true) →
      (insertLe le x l).Pairwise (fun a b => le a b = true) := by
  intro l
  induction l with
  | nil => intro _; simp [insertLe]
  | cons y ys ih =>
    intro hp
    rcases List.pairwise_cons.mp hp with ⟨hy, hys⟩
    by_cases h : le x y = true
    · simp only [insertLe, if_pos h]
      refine List.pairwise_cons.mpr ⟨?_, hp⟩
      intro b hb
      rcases List.mem_cons.mp hb with rfl | hb1
      · exact h
      · exact htrans x y b h (hy b hb1)
    · have hyx : le y x = true := by
        rcases htot x y with h1 | h1
        · exact absurd h1 h
        · exact h1
      simp only [insertLe, if_neg h]
      refine List.pairwise_cons.mpr ⟨?_, ih hys⟩
      intro b hb
      rcases mem_insertLe.mp hb with rfl | hb1
      · exact hyx
      · exact hy b hb1

theorem pairwise_sortBy {α : Type} {le : α → α → Bool}
    (htot : ∀ a b, le a b = true ∨ le b a = true)
    (htrans : ∀ a b c, le a b = true → le b c = true → le a c = true) :
    ∀ (l : List α), (sortBy le l).Pairwise (fun a b => le a b = true) := by
  intro l
  induction l with
  | nil => simp [sortBy]
  | cons x xs ih => exact pairwise_insertLe htot htrans x ih

theorem mem_keysOf {α κ : Type} [DecidableEq κ] {f : α → κ}
    {le : κ → κ → Bool} {l : List α} {k : κ} :
    k ∈ keysOf f le l ↔ ∃ x ∈ l, f x = k := by
  simp [keysOf, mem_sortBy, List.mem_dedup, List.mem_map]

theorem nodup_keysOf {α κ : Type} [DecidableEq κ] (f : α → κ)
    (le : κ → κ → Bool) (l : List α) : (keysOf f le l).Nodup :=
  nodup_sortBy (List.nodup_dedup _)

theorem sum_filter_not_add {α : Type} (p : α → Bool) (g : α → ℚ) :
    ∀ l : List α,
      ((l.filter p).map g).sum + ((l.filter (fun x => !p x)).map g).sum
        = (l.map g).sum := by
  intro l
  induction l with
  | nil => simp
  | cons a l ih =>
    by_cases hpa : p a = true
    · simp only [List.filter_cons, hpa, if_pos, Bool.not_true, if_neg,
        Bool.false_eq_true, not_false_iff, List.map_cons, List.sum_cons]
      linarith
    · have hpa' : p a = false := by simpa using hpa
      simp only [List.filter_cons, hpa', Bool.not_false, if_pos,
        Bool.false_eq_true, if_neg, not_false_iff, List.map_cons,
        List.sum_cons]
      linarith

theorem sum_over_groups {α κ : Type} [DecidableEq κ] (f : α → κ) (g : α → ℚ) :
    ∀ (K : List κ), K.Nodup → ∀ (l : List α), (∀ x ∈ l, f x ∈ K) →
      (K.map (fun k => ((l.filter (fun x => decide (f x = k))).map g).sum)).sum
        = (l.map g).sum := by
  intro K
  induction K with
  | nil =>
    intro _ l hcov
    cases l with
    | nil => simp
    | cons a l => exact absurd (hcov a (by simp)) (by simp)
  | cons k K ih =>
    intro hnd l hcov
    have hk : k ∉ K := (List.nodup_cons.mp hnd).1
    have hK : K.Nodup := (List.nodup_cons.mp hnd).2
    have hcov' : ∀ x ∈ l.filter (fun x => !(decide (f x = k))), f x ∈ K := by
      intro x hx
      have hxl := (List.mem_filter.mp hx).1
      have hne : ¬(f x = k) := by simpa using (List.mem_filter.mp hx).2
      rcases List.mem_cons.mp (hcov x hxl) with h1 | h1
      · exact absurd h1 hne
      · exact h1
    have hmapeq :
        K.map (fun k' => ((l.filter (fun x => decide (f x = k'))).map g).sum)
          = K.map (fun k' =>
              (((l.filter (fun x => !(decide (f x = k)))).filter
                  (fun x => decide (f x = k'))).map g).sum) := by
      apply List.map_congr_left
      intro k' hk'
      have hkk' : ¬(k' = k) := fun h => hk (h ▸ hk')
      rw [List.filter_filter]
      congr 1
      congr 1
      apply List.filter_congr
      intro x _
      by_cases hfx : f x = k'
      · have : ¬(f x = k) := fun h => hkk' (by rw [← hfx, h])
        simp [hfx, this, hkk']
      · simp [hfx]
    simp only [List.map_cons, List.sum_cons, hmapeq,
      ih hK (l.filter (fun x => !(decide (f x = k)))) hcov']
    exact sum_filter_not_add (fun x => decide (f x = k)) g l

theorem dedup_all_eq {κ : Type} [DecidableEq κ] :
    ∀ (l : List κ) (k : κ), l ≠ [] → (∀ x ∈ l, x = k) → l.dedup = [k] := by
  intro l
  induction l with
  | nil => intro k h _; exact absurd rfl h
  | cons x xs ih =>
    intro k _ hall
    have hx : x = k := hall x (by simp)
    cases xs with
    | nil => simp [List.dedup, hx]
    | cons y ys =>
      have hmem : x ∈ y :: ys := by
        have : y = k := hall y (by simp)
        rw [hx, ← this]; simp
      rw [List.dedup_cons_of_mem hmem]
      exact ih k (by simp) (fun z hz => hall z (by simp [hz]))

theorem pct_go_getElem (l : List ℚ) (prev : ℚ) (i : Nat) (c p : ℚ)
    (hc : l[i]? = some c) (hp : (prev :: l)[i]? = some p) :
    (pct_change_go prev l)[i]? = some ((pdiv (c - p) p).mul100) := by
  induction l generalizing prev i with
  | nil => simp at hc
  | cons a as ih =>
    cases i with
    | zero =>
      simp only [List.getElem?_cons_zero, Option.some.injEq] at hc hp
      subst hc; subst hp
      simp [pct_change_go]
    | succ n =>
      simp only [List.getElem?_cons_succ] at hc hp
      simpa [pct_change_go] using ih a n hc hp

theorem not_inf_cases {p : PFloat} (h : ¬p = PFloat.inf ∧ ¬p = PFloat.ninf) :
    p = PFloat.nan ∨ ∃ q : ℚ, p = PFloat.fin q := by
  cases p with
  | nan => exact Or.inl rfl
  | inf => exact absurd rfl h.1
  | ninf => exact absurd rfl h.2
  | fin q => exact Or.inr ⟨q, rfl⟩

theorem filter_not_nan :
    ∀ (l : List PFloat), (∀ p ∈ l, p = PFloat.nan ∨ ∃ q : ℚ, p = PFloat.fin q) →
      l.filter (fun x => !x.isNaN) = (l.filterMap PFloat.toQ).map PFloat.fin := by
  intro l
  induction l with
  | nil => intro _; simp
  | cons p ps ih =>
    intro hall
    rcases hall p (by simp) with h1 | ⟨q, h1⟩
    · subst h1
      simpa [PFloat.isNaN, PFloat.toQ] using ih (fun x hx => hall x (by simp [hx]))
    · subst h1
      simpa [PFloat.isNaN, PFloat.toQ] using ih (fun x hx => hall x (by simp [hx]))

theorem foldl_add_fins :
    ∀ (qs : List ℚ) (a : ℚ),
      (qs.map PFloat.fin).foldl PFloat.add (.fin a) = .fin (a + qs.sum) := by
  intro qs
  induction qs with
  | nil => intro a; simp
  | cons q qs ih =>
    intro a
    simp only [List.map_cons, List.foldl_cons, PFloat.add, List.sum_cons]
    rw [ih (a + q)]
    ring_nf

theorem pmean_no_inf (l : List PFloat)
    (hf : ∀ p ∈ l, p = PFloat.nan ∨ ∃ q : ℚ, p = PFloat.fin q) :
    pmean l =
      (if (l.filterMap PFloat.toQ).length = 0 then PFloat.nan
       else .fin ((l.filterMap PFloat.toQ).sum / (l.filterMap PFloat.toQ).length)) := by
  unfold pmean
  rw [filter_not_nan l hf]
  by_cases h : (l.filterMap PFloat.toQ).length = 0
  · simp [h]
  · simp only [List.length_map, h, if_neg, if_pos, not_false_iff]
    rw [foldl_add_fins]
    simp [PFloat.divNat]

/-! ## Claim theorems -/

/-- Claim C1 (confirmed): for every non-empty dataset, summing the
per-date sums of `plot_sales_time_series`'s aggregation over all group
keys gives exactly the sum of the `sales` column: the group-by is a
partition of the rows, with no double counting or loss. -/
theorem daily_sales_partition (data : List SalesRecord) (_hne : data ≠ []) :
    ((daily_sales data).map Prod.snd).sum = salesSum data := by
  unfold daily_sales salesSum
  rw [List.map_map]
  have hcov : ∀ x ∈ data, x.date ∈ keysOf SalesRecord.date dateLe data :=
    fun x hx => mem_keysOf.mpr ⟨x, hx, rfl⟩
  have := sum_over_groups SalesRecord.date SalesRecord.sales
    (keysOf SalesRecord.date dateLe data)
    (nodup_keysOf SalesRecord.date dateLe data) data hcov
  simpa [Function.comp, salesSum, groupRows] using this

theorem daily_sales_partition_witness :
    ((daily_sales exC1).map Prod.snd).sum = salesSum exC1 :=
  daily_sales_partition exC1 (by decide)

/-- Claim C2 (confirmed): on an empty dataset `business_insights_view`
renders only the "No sales data available." warning and returns; none of
the analysis sections is rendered, so no partial output is produced. -/
theorem business_insights_view_empty (data : List SalesRecord)
    (h : data = []) :
    business_insights_view data = [.noDataWarning] ∧
      ∀ s ∈ business_insights_view data, PageSection.isAnalysis s = false := by
  subst h
  constructor
  · rfl
  · intro s hs
    simp only [business_insights_view, List.isEmpty_nil, if_pos,
      List.mem_singleton] at hs
    simp [hs, PageSection.isAnalysis]

theorem business_insights_view_empty_witness :
    business_insights_view [] = [.noDataWarning] :=
  (business_insights_view_empty [] rfl).1

theorem filterMap_cellMean (data : List SalesRecord) (c : String) :
    ∀ ss : List String,
      ss.filterMap (fun s => cellMean data s c)
        = (ss.filter (fun s => !(cellRows data s c).isEmpty)).map
            (fun s => specCellMean data s c) := by
  intro ss
  induction ss with
  | nil => simp
  | cons s ss ih =>
    rw [List.filterMap_cons, List.filter_cons]
    by_cases h : (cellRows data s c).isEmpty = true
    · have h2 : cellMean data s c = none := by rw [cellMean, if_pos h]
      rw [h2, ih, h]
      simp
    · have h' : (cellRows data s c).isEmpty = false := by simpa using h
      have h2 : cellMean data s c = some (specCellMean data s c) := by
        rw [cellMean, if_neg (by simp [h'])]
        rfl
      rw [h2, ih, h']
      simp

theorem category_avg_eq (data : List SalesRecord) (c s : String)
    (hcell : cellRows data s c ≠ []) :
    category_avg data c = some (specColumnMean data c) := by
  have hs : s ∈ store_names data := by
    rcases List.exists_mem_of_ne_nil _ hcell with ⟨r, hr⟩
    have hrd := (List.mem_filter.mp hr).1
    have hpred := (List.mem_filter.mp hr).2
    have hsn : r.store_name = s := by
      have := (Bool.and_eq_true _ _).mp hpred
      exact beq_iff_eq.mp this.1
    exact mem_keysOf.mpr ⟨r, hrd, hsn⟩
  have hmem : s ∈ storesWithData data c := by
    refine List.mem_filter.mpr ⟨hs, ?_⟩
    simp [List.isEmpty_iff, hcell]
  have hlen : (storesWithData data c).length ≠ 0 := by
    intro h0
    rw [List.length_eq_zero] at h0
    rw [h0] at hmem
    simp at hmem
  have hfold : List.filter (fun s => !(cellRows data s c).isEmpty)
      (store_names data) = storesWithData data c := rfl
  unfold category_avg
  simp only [filterMap_cellMean, hfold, List.length_map]
  rw [if_neg hlen]
  rfl

/-- Claim C3 counterexample: a dataset whose single category column has
cross-store mean zero.  The gap computation does not fail and the
column is not skipped: the NaN deviation is propagated into the gaps
table. -/
theorem gaps_zero_mean_counterexample :
    category_avg exC3 "X" = some 0 ∧ gaps_cell exC3 "A" "X" = PFloat.nan := by
  constructor
  · norm_num [category_avg, cellMean, cellRows, exC3, salesSum, store_names,
      keysOf, sortBy, insertLe, strLe, charListLe, List.filterMap_cons,
      List.filterMap_nil]
  · norm_num [gaps_cell, category_avg, cellMean, cellRows, exC3, salesSum,
      store_names, keysOf, sortBy, insertLe, strLe, charListLe, pdiv,
      PFloat.mul100, PFloat.round1, List.filterMap_cons, List.filterMap_nil]

/-- Claim C3 (corrected): when a category's cross-store column mean is
zero, the code raises nothing and skips nothing; every cell with data in
that column is computed with the zero denominator and the resulting
non-finite deviation (NaN for a zero cell, a signed infinity otherwise)
is propagated into the gaps table. -/
theorem gaps_cell_zero_mean (data : List SalesRecord) (s c : String) (v : ℚ)
    (hcell : cellMean data s c = some v)
    (havg : category_avg data c = some 0) :
    gaps_cell data s c =
      (if v = 0 then PFloat.nan else if 0 < v then PFloat.inf else PFloat.ninf) := by
  unfold gaps_cell
  rw [hcell, havg]
  show ((pdiv (v - 0) 0).mul100).round1 = _
  rw [sub_zero]
  unfold pdiv
  by_cases h0 : v = 0
  · simp [h0, PFloat.mul100, PFloat.round1]
  · by_cases hpos : 0 < v
    · simp [h0, hpos, PFloat.mul100, PFloat.round1]
    · simp [h0, hpos, PFloat.mul100, PFloat.round1]

theorem gaps_cell_zero_mean_witness : gaps_cell exC3 "A" "X" = PFloat.nan := by
  have h := gaps_cell_zero_mean exC3 "A" "X" 0
    (by norm_num [cellMean, cellRows, exC3, salesSum])
    (by norm_num [category_avg, cellMean, cellRows, exC3, salesSum, store_names,
      keysOf, sortBy, insertLe, strLe, charListLe, List.filterMap_cons,
      List.filterMap_nil])
  simpa using h

/-- Claim C6 (confirmed): a gap cell with data, in a column whose mean
(taken only over the store x category combinations that have data) is
non-zero, equals `(cell_value - column_mean) / column_mean * 100`
rounded to one decimal. -/
theorem gaps_cell_formula (data : List SalesRecord) (s c : String)
    (hcell : cellRows data s c ≠ [])
    (hm : specColumnMean data c ≠ 0) :
    gaps_cell data s c =
      .fin (roundTo1 ((specCellMean data s c - specColumnMean data c)
        / specColumnMean data c * 100)) := by
  have hcm : cellMean data s c = some (specCellMean data s c) := by
    unfold cellMean specCellMean
    rw [if_neg (by simpa [List.isEmpty_iff] using hcell)]
  unfold gaps_cell
  rw [hcm, category_avg_eq data c s hcell]
  show ((pdiv (specCellMean data s c - specColumnMean data c)
    (specColumnMean data c)).mul100).round1 = _
  unfold pdiv
  rw [if_neg hm]
  rfl

theorem gaps_cell_formula_witness :
    gaps_cell exC6 "A" "X" =
      .fin (roundTo1 ((specCellMean exC6 "A" "X" - specColumnMean exC6 "X")
        / specColumnMean exC6 "X" * 100)) :=
  gaps_cell_formula exC6 "A" "X" (by decide) (by
    have h1 : storesWithData exC6 "X" = ["A", "B"] := by decide
    have h2 : cellRows exC6 "A" "X" = [⟨⟨2021, 1, 1⟩, 10, "A", "I", "X"⟩] := by
      decide
    have h3 : cellRows exC6 "B" "X" = [⟨⟨2021, 1, 1⟩, 20, "B", "I", "X"⟩] := by
      decide
    norm_num [specColumnMean, specCellMean, h1, h2, h3, salesSum])

theorem intLe_total : ∀ a b : Int, intLe a b = true ∨ intLe b a = true := by
  intro a b
  simp only [intLe, decide_eq_true_eq]
  omega

theorem intLe_trans :
    ∀ a b c : Int, intLe a b = true → intLe b c = true → intLe a c = true := by
  intro a b c
  simp only [intLe, decide_eq_true_eq]
  omega

/-- Claim C4 (confirmed): the monthly trend groups the rows by calendar
year-month (two rows land in the same group exactly when year and month
agree), lists the periods in chronological order, makes each period's
value that period's total sales, gives the first period a null (NaN)
percent change, and gives every later period
`(current - previous) / previous * 100`. -/
theorem monthly_trend_correct (data : List SalesRecord)
    (hval : ∀ r ∈ data, 1 ≤ r.date.month ∧ r.date.month ≤ 12) :
    ((monthly data).map Prod.fst).Pairwise (fun a b => a < b) ∧
    (∀ p ∈ monthly data, ∃ y m,
        (∃ r ∈ data, r.date.year = y ∧ r.date.month = m) ∧
        p = (y * 12 + (m - 1),
             salesSum (data.filter (fun x =>
               decide (x.date.year = y) && decide (x.date.month = m))))) ∧
    (monthlyVals data ≠ [] → (pct_change (monthlyVals data))[0]? = some .nan) ∧
    (∀ i a b, (monthlyVals data)[i]? = some a →
        (monthlyVals data)[i + 1]? = some b → a ≠ 0 →
        (pct_change (monthlyVals data))[i + 1]?
          = some (.fin ((b - a) / a * 100))) := by
  have hkeys : (monthly data).map Prod.fst
      = keysOf (fun r => periodKey r.date) intLe data := by
    unfold monthly
    rw [List.map_map]
    exact List.map_id _
  refine ⟨?_, ?_, ?_, ?_⟩
  · rw [hkeys]
    have hp := pairwise_sortBy intLe_total intLe_trans
      ((data.map (fun r => periodKey r.date)).dedup)
    have hnd := nodup_keysOf (fun r => periodKey r.date) intLe data
    exact (hp.and hnd).imp
      (fun h => lt_of_le_of_ne (by simpa [intLe] using h.1) h.2)
  · intro p hp
    unfold monthly at hp
    rcases List.mem_map.mp hp with ⟨k, hk, rfl⟩
    rcases mem_keysOf.mp hk with ⟨r, hr, hfk⟩
    have hfk' : periodKey r.date = k := hfk
    subst hfk'
    refine ⟨r.date.year, r.date.month, ⟨r, hr, rfl, rfl⟩, ?_⟩
    have hfil : groupRows (fun x => periodKey x.date) (periodKey r.date) data
        = data.filter (fun x =>
            decide (x.date.year = r.date.year) &&
            decide (x.date.month = r.date.month)) := by
      unfold groupRows
      apply List.filter_congr
      intro x hx
      have hbx := hval x hx
      have hbr := hval r hr
      have hiff : (periodKey x.date = periodKey r.date)
          ↔ (x.date.year = r.date.year ∧ x.date.month = r.date.month) := by
        unfold periodKey
        constructor
        · intro h; omega
        · intro h; omega
      simp [hiff]
    rw [hfil]
    rfl
  · intro hne
    cases hv : monthlyVals data with
    | nil => exact absurd hv hne
    | cons v vs =>
      simp [pct_change]
  · intro i a b ha hb hne0
    cases hv : monthlyVals data with
    | nil => rw [hv] at ha; simp at ha
    | cons v vs =>
      rw [hv] at ha hb
      have h1 : vs[i]? = some b := by simpa using hb
      have h2 : (v :: vs)[i]? = some a := ha
      have hgo := pct_go_getElem vs v i b a h1 h2
      have hred : (pct_change (v :: vs))[i + 1]? = (pct_change_go v vs)[i]? := by
        simp [pct_change]
      rw [hred, hgo]
      have hdiv : pdiv (b - a) a = .fin ((b - a) / a) := by
        unfold pdiv
        rw [if_neg hne0]
      rw [hdiv]
      rfl

theorem monthly_trend_correct_witness :
    (pct_change (monthlyVals exC4))[1]? = some (.fin 50) := by
  have hkeys : keysOf (fun r => periodKey r.date) intLe exC4
      = [24252, 24253] := by decide
  have hvals : monthlyVals exC4 = [100, 150] := by
    unfold monthlyVals monthly
    rw [hkeys]
    norm_num [groupRows, salesSum, exC4, periodKey]
  have h := (monthly_trend_correct exC4 (by decide)).2.2.2 0 100 150
    (by rw [hvals]; rfl) (by rw [hvals]; rfl) (by norm_num)
  have harith : ((150 : ℚ) - 100) / 100 * 100 = 50 := by norm_num
  rw [harith] at h
  exact h

/-- Claim C10 (confirmed): if all rows of a non-empty dataset fall in
one calendar month, the percent-change series is a single null (NaN)
entry, the recent-trend average is NaN (undefined), and — because a NaN
fails both the `> 5` and `> 0` comparisons — the executive summary
classifies the trend as declining. -/
theorem single_month_declining (data : List SalesRecord) (hne : data ≠ [])
    (hsame : ∀ r ∈ data, ∀ s ∈ data, periodKey r.date = periodKey s.date) :
    (pct_change (monthlyVals data)).all PFloat.isNaN = true ∧
    recent_trend data = .nan ∧
    classify_trend (recent_trend data) = .declining := by
  obtain ⟨r0, hr0⟩ : ∃ x, x ∈ data := List.exists_mem_of_ne_nil data hne
  have hdedup : (data.map (fun r => periodKey r.date)).dedup
      = [periodKey r0.date] := by
    apply dedup_all_eq
    · intro h
      exact hne (List.map_eq_nil_iff.mp h)
    · intro x hx
      rcases List.mem_map.mp hx with ⟨r, hr, rfl⟩
      exact hsame r hr r0 hr0
  have hkeys : keysOf (fun r => periodKey r.date) intLe data
      = [periodKey r0.date] := by
    unfold keysOf
    rw [hdedup]
    rfl
  have hvals : monthlyVals data
      = [salesSum (groupRows (fun r => periodKey r.date)
          (periodKey r0.date) data)] := by
    unfold monthlyVals monthly
    rw [hkeys]
    rfl
  have h2 : recent_trend data = .nan := by
    unfold recent_trend
    rw [hvals]
    rfl
  refine ⟨?_, h2, ?_⟩
  · rw [hvals]
    rfl
  · rw [h2]
    rfl

theorem single_month_declining_witness :
    recent_trend exC10 = PFloat.nan ∧
      classify_trend (recent_trend exC10) = TrendBand.declining :=
  (single_month_declining exC10 (by decide) (by decide)).2

/-- Claim C5 counterexample: in a three-year dataset, item "A" is
present in both of the two earliest years (2020 and 2021) with a
well-defined growth of 50 percent, yet the reported list is empty:
`dropna()` drops the row because its 2022 cell is NaN. -/
theorem yoy_dropna_counterexample :
    (itemYearSum exC5 "A" 2020).isSome = true ∧
    (itemYearSum exC5 "A" 2021).isSome = true ∧
    yearsOf exC5 = [2020, 2021, 2022] ∧
    growth_pct exC5 "A" = .fin 50 ∧
    yoy_reported exC5 = [] := by
  refine ⟨by decide, by decide, by decide, ?_, ?_⟩
  · have hyears : yearsOf exC5 = [2020, 2021, 2022] := by decide
    unfold growth_pct
    rw [hyears]
    norm_num [itemYearSum, itemYearRows, exC5, salesSum, pdiv, PFloat.mul100,
      PFloat.round1, roundTo1, roundHalfEven]
  · unfold yoy_reported
    rw [List.filter_eq_nil_iff]
    intro i hi
    have hmem : i ∈ item_names exC5 := mem_sortBy.mp hi
    have hitems : item_names exC5 = ["A", "B"] := by decide
    rw [hitems] at hmem
    rcases List.mem_cons.mp hmem with rfl | hmem
    · decide
    · rcases List.mem_cons.mp hmem with rfl | hmem
      · decide
      · simp at hmem

/-- Claim C5 (corrected): an item is reported by the year-over-year
analysis exactly when it has data in every available year (not just the
two being compared) and its growth is not NaN — `dropna()` drops any row
with a NaN in any year column; for a reported item whose earliest-year
total is nonzero, the growth equals
`(year2_total - year1_total) / year1_total * 100` rounded to 1 decimal. -/
theorem yoy_reported_characterization (data : List SalesRecord) (i : String)
    (hi : i ∈ item_names data) :
    (i ∈ yoy_reported data ↔
      ((∀ y ∈ yearsOf data, (itemYearSum data i y).isSome = true) ∧
        (growth_pct data i).isNaN = false)) ∧
    (∀ y1 y2 ys a b, yearsOf data = y1 :: y2 :: ys →
      itemYearSum data i y1 = some a → itemYearSum data i y2 = some b →
      a ≠ 0 → growth_pct data i = .fin (roundTo1 ((b - a) / a * 100))) := by
  constructor
  · unfold yoy_reported
    rw [List.mem_filter]
    constructor
    · rintro ⟨-, hp⟩
      rcases (Bool.and_eq_true _ _).mp hp with ⟨hall, hnan⟩
      exact ⟨fun y hy => List.all_eq_true.mp hall y hy, by simpa using hnan⟩
    · rintro ⟨hall, hnan⟩
      refine ⟨mem_sortBy.mpr hi, ?_⟩
      rw [Bool.and_eq_true]
      exact ⟨List.all_eq_true.mpr (fun y hy => hall y hy), by simp [hnan]⟩
  · intro y1 y2 ys a b hy ha hb hne0
    simp only [growth_pct, hy, ha, hb]
    have hdiv : pdiv (b - a) a = .fin ((b - a) / a) := by
      unfold pdiv
      rw [if_neg hne0]
    rw [hdiv]
    rfl

theorem yoy_reported_characterization_witness : "A" ∈ yoy_reported exC5w := by
  refine ((yoy_reported_characterization exC5w "A" (by decide)).1).mpr
    ⟨by decide, ?_⟩
  have hg : growth_pct exC5w "A" = .fin 50 := by
    norm_num [growth_pct, exC5w, yearsOf, keysOf, sortBy, insertLe, intLe,
      itemYearSum, itemYearRows, salesSum, pdiv, PFloat.mul100, PFloat.round1,
      roundTo1, roundHalfEven]
  rw [hg]
  rfl

theorem reindex_keys (tbl : List (String × ℚ)) (order : List String) :
    (reindex tbl order).map Prod.fst = order := by
  unfold reindex
  rw [List.map_map]
  exact List.map_id _

/-- Claim C7 (confirmed): for every dataset and every reordering of its
rows, the day-of-week aggregation presents its keys in the fixed order
Monday..Sunday (which is not the alphabetical order of the day names),
and every non-empty bar belongs to a day name obtained by calendar
extraction from some row's date. -/
theorem dow_keys_fixed_order (data data' : List SalesRecord)
    (_hperm : data.Perm data') :
    (plot_day_of_week_pattern data).map Prod.fst = day_order ∧
    (plot_day_of_week_pattern data').map Prod.fst = day_order ∧
    sortBy strLe day_order ≠ day_order ∧
    (∀ p ∈ plot_day_of_week_pattern data, p.2 ≠ .nan →
      ∃ r ∈ data, day_name r.date = p.1) := by
  refine ⟨reindex_keys _ _, reindex_keys _ _, by decide, ?_⟩
  intro p hp hnan
  unfold plot_day_of_week_pattern reindex at hp
  rcases List.mem_map.mp hp with ⟨k, hk, rfl⟩
  cases hfind : (groupbyMean (fun r => day_name r.date) strLe data).find?
      (fun q => q.1 == k) with
  | none =>
    rw [hfind] at hnan
    exact absurd rfl hnan
  | some pr =>
    rw [hfind] at hnan
    have hprk : pr.1 = k := by
      have := List.find?_some hfind
      simpa using this
    have hprmem := List.mem_of_find?_eq_some hfind
    unfold groupbyMean at hprmem
    rcases List.mem_map.mp hprmem with ⟨k', hk', hpr⟩
    rcases mem_keysOf.mp hk' with ⟨r, hr, hrk⟩
    refine ⟨r, hr, ?_⟩
    have : k' = pr.1 := by rw [← hpr]
    rw [hrk, this, hprk]

theorem dow_keys_fixed_order_witness :
    (plot_day_of_week_pattern exC7a).map Prod.fst = day_order :=
  (dow_keys_fixed_order exC7a exC7b (List.Perm.swap _ _ _)).1

/-- Claim C8 counterexample: with monthly totals 1, 2, 0, 0, 0 the last
three percent changes are [-100, NaN, NaN]; the code averages the
non-null entries among the last three rows (giving -100), while the
claimed "mean of the last 3 non-null percent changes" is the mean of
100 and -100 (giving 0). -/
theorem recent_trend_counterexample :
    recent_trend exC8 = .fin (-100) ∧ specRecentTrendClaim exC8 = .fin 0 ∧
      recent_trend exC8 ≠ specRecentTrendClaim exC8 := by
  have h1 : recent_trend exC8 = .fin (-100) := by
    norm_num [recent_trend, exC8, monthlyVals, monthly, keysOf, sortBy,
      insertLe, groupRows, salesSum, periodKey, intLe, pct_change,
      pct_change_go, pdiv, PFloat.mul100, lastN, pmean, PFloat.isNaN,
      PFloat.add, PFloat.divNat]
  have h2 : specRecentTrendClaim exC8 = .fin 0 := by
    norm_num [specRecentTrendClaim, exC8, monthlyVals, monthly, keysOf,
      sortBy, insertLe, groupRows, salesSum, periodKey, intLe, pct_change,
      pct_change_go, pdiv, PFloat.mul100, lastN, pmean, PFloat.isNaN,
      PFloat.add, PFloat.divNat]
  refine ⟨h1, h2, ?_⟩
  rw [h1, h2]
  intro heq
  have : (-100 : ℚ) = 0 := PFloat.fin.inj heq
  norm_num at this

/-- Claim C8 (corrected): the recent trend is the `tail(3).mean()` of
the percent-change series — the mean of the non-null percent changes
among the LAST THREE PERIODS (NaN when all three are null), not the mean
of the last three non-null changes; the classification bands are as
claimed: positive above 5, stable in (0, 5], declining at or below 0
(and for an undefined NaN average). -/
theorem recent_trend_amended (data : List SalesRecord)
    (hf : ∀ p ∈ lastN 3 (pct_change (monthlyVals data)),
        ¬p = PFloat.inf ∧ ¬p = PFloat.ninf) :
    (recent_trend data =
      (if ((lastN 3 (pct_change (monthlyVals data))).filterMap PFloat.toQ).length = 0
       then PFloat.nan
       else .fin
         (((lastN 3 (pct_change (monthlyVals data))).filterMap PFloat.toQ).sum
           / ((lastN 3 (pct_change (monthlyVals data))).filterMap PFloat.toQ).length))) ∧
    (∀ q : ℚ, classify_trend (.fin q) =
      (if 5 < q then TrendBand.positive
       else if 0 < q then TrendBand.stable
       else TrendBand.declining)) ∧
    classify_trend PFloat.nan = TrendBand.declining := by
  refine ⟨?_, ?_, rfl⟩
  · unfold recent_trend
    exact pmean_no_inf _ (fun p hp => not_inf_cases (hf p hp))
  · intro q
    simp only [classify_trend, pfGtQ]
    by_cases h5 : (5 : ℚ) < q
    · simp [h5]
    · by_cases h0 : (0 : ℚ) < q
      · simp [h5, h0]
      · simp [h5, h0]

theorem recent_trend_amended_witness :
    recent_trend exC8 =
      (if ((lastN 3 (pct_change (monthlyVals exC8))).filterMap PFloat.toQ).length = 0
       then PFloat.nan
       else .fin
         (((lastN 3 (pct_change (monthlyVals exC8))).filterMap PFloat.toQ).sum
           / ((lastN 3 (pct_change (monthlyVals exC8))).filterMap PFloat.toQ).length)) :=
  (recent_trend_amended exC8 (by
    have hl : lastN 3 (pct_change (monthlyVals exC8))
        = [.fin (-100), .nan, .nan] := by
      norm_num [exC8, monthlyVals, monthly, keysOf, sortBy, insertLe,
        groupRows, salesSum, periodKey, intLe, pct_change, pct_change_go,
        pdiv, PFloat.mul100, lastN]
    rw [hl]
    decide)).1

/-- Claim C9 (confirmed): the two functions that derive a day-of-week
column do so on a `.copy()` of the caller's dataframe: after execution
the caller's variable still refers to the unmodified dataset (same rows,
no added column), and only the local copy carries the derived column. -/
theorem views_do_not_mutate (rs : List SalesRecord) :
    frameOfVar "data" timing_insights_body rs "data" = some (Frame.ofRows rs) ∧
    frameOfVar "data" timing_insights_body rs "data_copy"
      = some ⟨rs, [("day_of_week", rs.map (fun r => day_name r.date))]⟩ ∧
    frameOfVar "filtered_data" dow_pattern_body rs "filtered_data"
      = some (Frame.ofRows rs) ∧
    frameOfVar "filtered_data" dow_pattern_body rs "data"
      = some ⟨rs, [("day_of_week", rs.map (fun r => day_name r.date))]⟩ :=
  ⟨rfl, rfl, rfl, rfl⟩

end SalesSpec
